import Mathlib

/-!
Verification of the microbiology portal's assignment/state-machine core
(`src/core/views.py`, `src/core/models.py`, `src/core/forms.py`).

The embedding models the entity store (users, requests, reports, history
entries) and the three actor-facing operations:
`submit` (doctor_submit_view), `claim` (assign_case) and
`completeWithReport` (lab_process_request).  The fallibility of the
best-effort history write (the `try ... except Exception: pass` blocks)
is modelled by an oracle boolean `hOk` passed to each operation: `true`
means the `RequestHistory.objects.create` call succeeds, `false` means
it raises.
-/

namespace Microbiology

/-- Role of a `PortalUser` (`PortalUser.ROLE_CHOICES` in models.py). -/
inductive Role where
  | Doctor
  | Lab
deriving DecidableEq, Repr

/-- `Request.status` (`STATUS_CHOICES`: Pending / Completed). -/
inductive Status where
  | Pending
  | Completed
deriving DecidableEq, Repr

/-- `Request.assignment_status` (`ASSIGNMENT_STATUS_CHOICES`). -/
inductive AssignmentStatus where
  | Unassigned
  | Assigned
  | InProgress
  | Completed
deriving DecidableEq, Repr

/-- A portal user: id, role, full name and Django's `is_active` flag. -/
structure PortalUser where
  uid : Nat
  role : Role
  fullName : String
  isActive : Bool
deriving DecidableEq, Repr

/-- A `Request` row, restricted to the fields the core logic reads or
writes: primary key, owning doctor, patient id, `status`,
`assigned_to` (nullable), `assignment_status`, `assigned_date`. -/
structure Request where
  rid : Nat
  doctor : Nat
  patientId : String
  status : Status
  assignedTo : Option Nat
  assignmentStatus : AssignmentStatus
  assignedDate : Option Nat
deriving DecidableEq, Repr

/-- A `Report` row (one-to-one with `Request`, `request` is the primary
key), restricted to the fields the core logic touches. -/
structure Report where
  requestId : Nat
  rcCode : String
  labId : String
  reportText : String
  authBy : String
  hasPdf : Bool
  pdfUploadedDate : Option Nat
deriving DecidableEq, Repr

/-- A `RequestHistory` row: request, acting user (nullable), action
label and free-text note. -/
structure RequestHistory where
  requestId : Nat
  user : Option Nat
  action : String
  note : String
deriving DecidableEq, Repr

/-- The entity store: all persisted rows plus the next auto-increment
primary key for `Request`. -/
structure Store where
  users : List PortalUser
  requests : List Request
  reports : List Report
  history : List RequestHistory
  nextId : Nat
deriving DecidableEq, Repr

/-- Look up a user's `full_name` by id (empty string if absent). -/
def userName (s : Store) (uid : Nat) : String :=
  match s.users.find? (fun u => u.uid == uid) with
  | some u => u.fullName
  | none => ""

/-- `PortalUser.objects.filter(role='Lab', is_active=True)` — the active
technicians used by the availability check and the auto-assignment pool
in `doctor_submit_view`. -/
def labTechs (s : Store) : List PortalUser :=
  s.users.filter (fun u => decide (u.role = Role.Lab) && u.isActive)

/-- `PortalUser.objects.filter(role='Lab')` — the queryset of the
`assigned_to` `ModelChoiceField` in `DoctorRequestForm` (forms.py);
note the absence of an `is_active` filter. -/
def labRoleUsers (s : Store) : List PortalUser :=
  s.users.filter (fun u => decide (u.role = Role.Lab))

/-- `tech.assigned_requests.filter(status='Pending').count()` — the
load metric of the allocator. -/
def pendingCount (s : Store) (tid : Nat) : Nat :=
  (s.requests.filter
    (fun r => r.assignedTo == some tid && decide (r.status = Status.Pending))).length

/-- Python's `min(x :: xs, key)`: a left fold that replaces the current
best only on a strictly smaller key, so the first occurrence of the
minimum key wins. -/
def pyMin {α : Type} (key : α → Nat) (x : α) (xs : List α) : α :=
  xs.foldl (fun best y => if key y < key best then y else best) x

/-- The minimum key value of a nonempty list (0 for the empty list). -/
def minKeyVal {α : Type} (key : α → Nat) : List α → Nat
  | [] => 0
  | x :: xs => xs.foldl (fun m v => Nat.min m (key v)) (key x)

/-- Modelled from the spec: "select the technician with the minimum
count. Tie-break: stable by iteration order of the technician set
(first encountered minimum wins)" — the first element of the list whose
key equals the minimum key value. -/
def specFirstMin {α : Type} (key : α → Nat) (l : List α) : Option α :=
  l.find? (fun v => key v == minKeyVal key l)

/-- Errors of the submission operation.  `FormInvalid` models Django
form validation failing (the POST falls through and nothing is saved);
`NoTechniciansAvailable` is the explicit `lab_techs.exists()` guard. -/
inductive SubmitError where
  | FormInvalid
  | NoTechniciansAvailable
deriving DecidableEq, Repr

/-- Error of the claim operation (`assign_case`'s
`get_object_or_404(..., status='Pending', assignment_status='Unassigned')`
raising 404). -/
inductive ClaimError where
  | InvalidStateTransition
deriving DecidableEq, Repr

/-- Error of report completion (`lab_process_request`'s
`get_object_or_404(..., status='Pending')` raising 404). -/
inductive CompleteError where
  | RequestNotEligible
deriving DecidableEq, Repr

/-- The part of `DoctorRequestForm` the core logic reads: the patient id
and the optional explicit `assigned_to` choice. -/
structure SubmitForm where
  patientId : String
  assignedTo : Option Nat
deriving DecidableEq, Repr

/-- The part of `LabReportForm` (plus the separate PDF upload) the core
logic reads. -/
structure ReportForm where
  rcCode : String
  labId : String
  reportText : String
  authBy : String
  hasPdf : Bool
deriving DecidableEq, Repr

/-- Validity of the modelled part of `DoctorRequestForm`: an explicit
`assigned_to` choice must come from the field's queryset, which is all
Lab-role users with no `is_active` restriction (forms.py lines 26-32). -/
def formValid (s : Store) (f : SubmitForm) : Bool :=
  match f.assignedTo with
  | none => true
  | some tid => (labRoleUsers s).any (fun u => u.uid == tid)

/-- `RequestHistory.objects.create(...)` wrapped in
`try ... except Exception: pass`: if the write succeeds (`hOk = true`)
the entry is persisted, otherwise the store is left as it was and the
exception is swallowed. -/
def recordHistory (hOk : Bool) (s : Store) (e : RequestHistory) : Store :=
  if hOk then { s with history := e :: s.history } else s

/-- `doctor_submit_view` (views.py lines 69-125), POST with the form
fields bound: validate the form, check for active technicians, honor an
explicit technician choice or auto-assign to the least busy active
technician (Python `min` over the queryset keyed by pending count),
persist the new `Request`, then best-effort write one history entry
with action `Submitted`.  Returns the new request's id on success,
paired with the resulting store. -/
def submit (s : Store) (doctor : Nat) (f : SubmitForm) (now : Nat) (hOk : Bool) :
    Except SubmitError Nat × Store :=
  if formValid s f then
    match labTechs s with
    | [] => (Except.error SubmitError.NoTechniciansAvailable, s)
    | t :: ts =>
      let chosen : Nat × String :=
        match f.assignedTo with
        | some tid => (tid, "assigned to " ++ userName s tid)
        | none =>
          let leastBusy := pyMin (fun u => pendingCount s u.uid) t ts
          (leastBusy.uid, "auto-assigned to " ++ leastBusy.fullName ++ " (least busy)")
      let newReq : Request :=
        { rid := s.nextId, doctor := doctor, patientId := f.patientId,
          status := Status.Pending, assignedTo := some chosen.1,
          assignmentStatus := AssignmentStatus.Assigned, assignedDate := some now }
      let s1 : Store :=
        { s with requests := s.requests ++ [newReq], nextId := s.nextId + 1 }
      let s2 : Store := recordHistory hOk s1
        { requestId := newReq.rid, user := some doctor, action := "Submitted",
          note := "Submitted by Dr. " ++ userName s doctor ++ " and " ++ chosen.2 }
      (Except.ok newReq.rid, s2)
  else (Except.error SubmitError.FormInvalid, s)

/-- Update the request row with primary key `pk` in place. -/
def updateRequest (reqs : List Request) (pk : Nat) (g : Request → Request) :
    List Request :=
  reqs.map (fun r => if r.rid == pk then g r else r)

/-- `assign_case` (views.py lines 497-519), POST: look up the request
with `pk`, `status='Pending'` and `assignment_status='Unassigned'`
(404, i.e. `InvalidStateTransition`, if absent), self-assign it to the
acting technician stamping the assignment date, then best-effort write
one history entry with action `Assigned`. -/
def claim (s : Store) (pk : Nat) (actor : Nat) (now : Nat) (hOk : Bool) :
    Except ClaimError Unit × Store :=
  match s.requests.find? (fun r =>
      r.rid == pk && decide (r.status = Status.Pending) &&
      decide (r.assignmentStatus = AssignmentStatus.Unassigned)) with
  | none => (Except.error ClaimError.InvalidStateTransition, s)
  | some _ =>
    let s1 : Store := { s with requests := updateRequest s.requests pk (fun c =>
      { c with assignedTo := some actor,
               assignmentStatus := AssignmentStatus.Assigned,
               assignedDate := some now }) }
    let s2 : Store := recordHistory hOk s1
      { requestId := pk, user := some actor, action := "Assigned",
        note := "Assigned to " ++ userName s actor }
    (Except.ok (), s2)

/-- `lab_process_request` (views.py lines 261-296), POST with a valid
report form: look up the request with `pk` and `status='Pending'`
(404, i.e. `RequestNotEligible`, if absent), persist the `Report`
(stamping the PDF upload date when a PDF is attached), set both
`status` and `assignment_status` to Completed, then best-effort write
one history entry with action `Report Completed`. -/
def completeWithReport (s : Store) (pk : Nat) (actor : Nat) (f : ReportForm)
    (now : Nat) (hOk : Bool) : Except CompleteError Unit × Store :=
  match s.requests.find? (fun r =>
      r.rid == pk && decide (r.status = Status.Pending)) with
  | none => (Except.error CompleteError.RequestNotEligible, s)
  | some _ =>
    let rep : Report :=
      { requestId := pk, rcCode := f.rcCode, labId := f.labId,
        reportText := f.reportText, authBy := f.authBy, hasPdf := f.hasPdf,
        pdfUploadedDate := if f.hasPdf then some now else none }
    let s1 : Store := { s with
      reports := s.reports ++ [rep],
      requests := updateRequest s.requests pk (fun r =>
        { r with status := Status.Completed,
                 assignmentStatus := AssignmentStatus.Completed }) }
    let pdfNote := if f.hasPdf then " (with PDF)" else ""
    let s2 : Store := recordHistory hOk s1
      { requestId := pk, user := some actor, action := "Report Completed",
        note := "Report authored by " ++ f.authBy ++ pdfNote }
    (Except.ok (), s2)

/-- Whether a `Report` row exists for the request with id `rid`. -/
def hasReport (s : Store) (rid : Nat) : Bool :=
  s.reports.any (fun rep => rep.requestId == rid)

/-- Whether an `Except` result is a success. -/
def okResult {E A : Type} : Except E A → Bool
  | Except.ok _ => true
  | Except.error _ => false

/-- A store holding only user rows: no requests, reports or history. -/
def initStore (users : List PortalUser) (nid : Nat) : Store :=
  { users := users, requests := [], reports := [], history := [], nextId := nid }

/-- The stores reachable from an initial store through the three core
operations (each step covers both the success and the failure outcome,
and either value of the history-write oracle). -/
inductive Reachable : Store → Prop where
  | init (users : List PortalUser) (nid : Nat) : Reachable (initStore users nid)
  | submitStep {s : Store} (doctor : Nat) (f : SubmitForm) (now : Nat) (hOk : Bool) :
      Reachable s → Reachable (submit s doctor f now hOk).2
  | claimStep {s : Store} (pk actor now : Nat) (hOk : Bool) :
      Reachable s → Reachable (claim s pk actor now hOk).2
  | completeStep {s : Store} (pk actor : Nat) (f : ReportForm) (now : Nat) (hOk : Bool) :
      Reachable s → Reachable (completeWithReport s pk actor f now hOk).2

/-- The completion invariant of §3 of the spec:
`status = Completed` ⇔ a report row exists ⇔ `assignment_status = Completed`. -/
def CompletionInv (s : Store) : Prop :=
  ∀ r ∈ s.requests,
    (r.status = Status.Completed ↔ hasReport s r.rid = true) ∧
    (r.status = Status.Completed ↔ r.assignmentStatus = AssignmentStatus.Completed)

/-- Boolean form of `CompletionInv`. -/
def completionInvB (s : Store) : Bool :=
  s.requests.all (fun r =>
    (decide (r.status = Status.Completed) == hasReport s r.rid) &&
    (decide (r.status = Status.Completed) ==
      decide (r.assignmentStatus = AssignmentStatus.Completed)))

/-- Well-formedness maintained by the operations: request ids and report
ids are below the next auto-increment key, and the completion invariant
holds. -/
structure WF (s : Store) : Prop where
  fresh : ∀ r ∈ s.requests, r.rid < s.nextId
  repFresh : ∀ rep ∈ s.reports, rep.requestId < s.nextId
  inv : CompletionInv s

/-! ### Helper lemmas -/

theorem recordHistory_requests (hOk : Bool) (s : Store) (e : RequestHistory) :
    (recordHistory hOk s e).requests = s.requests := by
  cases hOk <;> rfl

theorem recordHistory_reports (hOk : Bool) (s : Store) (e : RequestHistory) :
    (recordHistory hOk s e).reports = s.reports := by
  cases hOk <;> rfl

theorem recordHistory_nextId (hOk : Bool) (s : Store) (e : RequestHistory) :
    (recordHistory hOk s e).nextId = s.nextId := by
  cases hOk <;> rfl

theorem recordHistory_hasReport (hOk : Bool) (s : Store) (e : RequestHistory)
    (x : Nat) : hasReport (recordHistory hOk s e) x = hasReport s x := by
  cases hOk <;> rfl

theorem recordHistory_true_history (s : Store) (e : RequestHistory) :
    (recordHistory true s e).history = e :: s.history := rfl

theorem recordHistory_false (s : Store) (e : RequestHistory) :
    recordHistory false s e = s := rfl

theorem updateRequest_map_eq {β : Type} (acc : Request → β) (l : List Request)
    (pk : Nat) (g : Request → Request) (h : ∀ r, acc (g r) = acc r) :
    (updateRequest l pk g).map acc = l.map acc := by
  unfold updateRequest
  rw [List.map_map]
  apply List.map_congr_left
  intro r _
  by_cases hr : r.rid = pk
  · simp [hr, h]
  · simp [hr]

theorem updateRequest_filter_ne (l : List Request) (pk : Nat)
    (g : Request → Request) (hg : ∀ r, (g r).rid = r.rid) :
    (updateRequest l pk g).filter (fun r => !(r.rid == pk)) =
      l.filter (fun r => !(r.rid == pk)) := by
  induction l with
  | nil => rfl
  | cons a l ih =>
    by_cases ha : a.rid = pk
    · have h1 : (a.rid == pk) = true := by simp [ha]
      have h2 : ((g a).rid == pk) = true := by simp [hg, ha]
      simp only [updateRequest, List.map_cons, List.filter_cons, h1, h2,
        if_true, Bool.not_true, Bool.false_eq_true, if_false] at ih ⊢
      exact ih
    · have h1 : (a.rid == pk) = false := by simp [ha]
      simp only [updateRequest, List.map_cons, List.filter_cons, h1,
        Bool.false_eq_true, if_false, Bool.not_false, if_true] at ih ⊢
      rw [ih]

theorem pyMin_cons {α : Type} (key : α → Nat) (x y : α) (ys : List α) :
    pyMin key x (y :: ys) = pyMin key (if key y < key x then y else x) ys := rfl

theorem pyMin_le_head {α : Type} (key : α → Nat) :
    ∀ (xs : List α) (x : α), key (pyMin key x xs) ≤ key x := by
  intro xs
  induction xs with
  | nil => intro x; exact Nat.le_refl _
  | cons y ys ih =>
    intro x
    by_cases hc : key y < key x
    · rw [pyMin_cons, if_pos hc]
      have := ih y
      omega
    · rw [pyMin_cons, if_neg hc]
      exact ih x

theorem pyMin_le_mem {α : Type} (key : α → Nat) :
    ∀ (xs : List α) (x y : α), y ∈ xs → key (pyMin key x xs) ≤ key y := by
  intro xs
  induction xs with
  | nil => intro x y hy; cases hy
  | cons z zs ih =>
    intro x y hy
    by_cases hc : key z < key x
    · rw [pyMin_cons, if_pos hc]
      rcases List.mem_cons.mp hy with h | h
      · subst h; exact pyMin_le_head key zs y
      · exact ih z y h
    · rw [pyMin_cons, if_neg hc]
      rcases List.mem_cons.mp hy with h | h
      · subst h
        have := pyMin_le_head key zs x
        omega
      · exact ih x y h

theorem pyMin_decomp {α : Type} (key : α → Nat) :
    ∀ (xs : List α) (x : α),
      ∃ l1 l2, x :: xs = l1 ++ pyMin key x xs :: l2 ∧
        ∀ u ∈ l1, key (pyMin key x xs) < key u := by
  intro xs
  induction xs with
  | nil => intro x; exact ⟨[], [], rfl, by simp⟩
  | cons y ys ih =>
    intro x
    by_cases hc : key y < key x
    · rw [pyMin_cons, if_pos hc]
      obtain ⟨l1, l2, heq, hl⟩ := ih y
      refine ⟨x :: l1, l2, ?_, ?_⟩
      · rw [List.cons_append, ← heq]
      · intro u hu
        rcases List.mem_cons.mp hu with h | h
        · subst h
          have := pyMin_le_head key ys y
          omega
        · exact hl u h
    · rw [pyMin_cons, if_neg hc]
      obtain ⟨l1, l2, heq, hl⟩ := ih x
      cases l1 with
      | nil =>
        simp only [List.nil_append, List.cons.injEq] at heq
        refine ⟨[], y :: ys, ?_, by simp⟩
        simp [← heq.1]
      | cons a l1 =>
        simp only [List.cons_append, List.cons.injEq] at heq
        obtain ⟨hax, hys⟩ := heq
        have hrx : key (pyMin key x ys) < key x := by
          have := hl a (List.mem_cons_self a l1)
          rw [← hax] at this
          exact this
        refine ⟨x :: y :: l1, l2, ?_, ?_⟩
        · rw [List.cons_append, List.cons_append, ← hys]
        · intro u hu
          rcases List.mem_cons.mp hu with h | h
          · subst h; exact hrx
          rcases List.mem_cons.mp h with h2 | h2
          · subst h2; omega
          · exact hl u (List.mem_cons_of_mem a h2)

theorem minKeyVal_cons {α : Type} (key : α → Nat) :
    ∀ (xs : List α) (x : α), minKeyVal key (x :: xs) = key (pyMin key x xs) := by
  intro xs
  induction xs with
  | nil => intro x; rfl
  | cons y ys ih =>
    intro x
    by_cases hc : key y < key x
    · rw [pyMin_cons, if_pos hc, ← ih y]
      simp only [minKeyVal, List.foldl_cons]
      rw [show Nat.min (key x) (key y) = key y from Nat.min_eq_right (by omega)]
    · rw [pyMin_cons, if_neg hc, ← ih x]
      simp only [minKeyVal, List.foldl_cons]
      rw [show Nat.min (key x) (key y) = key x from Nat.min_eq_left (by omega)]

theorem find?_append_false {α : Type} (p : α → Bool) :
    ∀ (l1 l2 : List α), (∀ u ∈ l1, p u = false) →
      List.find? p (l1 ++ l2) = List.find? p l2 := by
  intro l1
  induction l1 with
  | nil => intro l2 _; rfl
  | cons a l ih =>
    intro l2 h
    have ha : p a = false := h a (List.mem_cons_self a l)
    rw [List.cons_append, List.find?_cons, ha]
    exact ih l2 (fun u hu => h u (List.mem_cons_of_mem a hu))

/-- The code's allocator (Python `min` over the technician list) picks
exactly the technician the spec describes: the first one, in iteration
order, whose pending count equals the minimum pending count. -/
theorem specFirstMin_cons {α : Type} (key : α → Nat) (x : α) (xs : List α) :
    specFirstMin key (x :: xs) = some (pyMin key x xs) := by
  obtain ⟨l1, l2, heq, hl⟩ := pyMin_decomp key xs x
  unfold specFirstMin
  rw [minKeyVal_cons, heq, find?_append_false _ l1 _ ?hfalse]
  · rw [List.find?_cons]
    simp
  case hfalse =>
    intro u hu
    have := hl u hu
    simp only [beq_eq_false_iff_ne]
    omega

theorem WF_init (users : List PortalUser) (nid : Nat) : WF (initStore users nid) := by
  refine ⟨?_, ?_, ?_⟩ <;> intro r hr <;> cases hr

theorem WF_recordHistory (hOk : Bool) (s : Store) (e : RequestHistory)
    (hwf : WF s) : WF (recordHistory hOk s e) := by
  cases hOk <;> exact ⟨hwf.fresh, hwf.repFresh, hwf.inv⟩

theorem WF_submit_append (s : Store) (req : Request) (hwf : WF s)
    (hrid : req.rid = s.nextId) (hst : req.status = Status.Pending)
    (has : req.assignmentStatus = AssignmentStatus.Assigned) :
    WF { s with requests := s.requests ++ [req], nextId := s.nextId + 1 } := by
  have hfalse : hasReport s req.rid = false := by
    rw [hasReport, List.any_eq_false]
    intro rep hrep
    intro hco
    rw [beq_iff_eq] at hco
    have h5 := hwf.repFresh rep hrep
    omega
  refine ⟨?_, ?_, ?_⟩
  · intro r hr
    show r.rid < s.nextId + 1
    rcases List.mem_append.mp hr with h | h
    · have := hwf.fresh r h
      omega
    · rw [List.mem_singleton.mp h, hrid]
      omega
  · intro rep hr
    show rep.requestId < s.nextId + 1
    have := hwf.repFresh rep hr
    omega
  · intro r hr
    rcases List.mem_append.mp hr with h | h
    · exact hwf.inv r h
    · rw [List.mem_singleton.mp h]
      constructor
      · rw [hst]
        show Status.Pending = Status.Completed ↔ hasReport s req.rid = true
        rw [hfalse]
        constructor
        · intro hco; exact Status.noConfusion hco
        · intro hco; exact Bool.noConfusion hco
      · rw [hst, has]
        constructor
        · intro hco; exact Status.noConfusion hco
        · intro hco; exact AssignmentStatus.noConfusion hco

theorem submit_WF (s : Store) (d : Nat) (f : SubmitForm) (now : Nat) (hOk : Bool)
    (hwf : WF s) : WF ((submit s d f now hOk).2) := by
  unfold submit
  split
  · split
    · exact hwf
    · exact WF_recordHistory hOk _ _ (WF_submit_append s _ hwf rfl rfl rfl)
  · exact hwf

theorem claim_WF (s : Store) (pk actor now : Nat) (hOk : Bool) (hwf : WF s) :
    WF ((claim s pk actor now hOk).2) := by
  unfold claim
  split
  · exact hwf
  · rename_i c heq
    have hc_mem := List.mem_of_find?_eq_some heq
    have hc_pred := List.find?_some heq
    simp only [Bool.and_eq_true, beq_iff_eq, decide_eq_true_eq] at hc_pred
    obtain ⟨⟨hcrid, hcst⟩, hcas⟩ := hc_pred
    have hnorep : hasReport s pk = false := by
      cases hhh : hasReport s pk
      · rfl
      · exfalso
        have h1 := (hwf.inv c hc_mem).1
        rw [hcrid] at h1
        have h2 := h1.mpr hhh
        rw [hcst] at h2
        exact Status.noConfusion h2
    apply WF_recordHistory
    refine ⟨?_, hwf.repFresh, ?_⟩
    · intro r hr
      simp only [updateRequest, List.mem_map] at hr
      obtain ⟨r0, hr0, rfl⟩ := hr
      have hfr := hwf.fresh r0 hr0
      split <;> exact hfr
    · intro r hr
      simp only [updateRequest, List.mem_map] at hr
      obtain ⟨r0, hr0, rfl⟩ := hr
      have h0 := hwf.inv r0 hr0
      by_cases hb : (r0.rid == pk) = true
      · rw [if_pos hb]
        have hbid : r0.rid = pk := by rwa [beq_iff_eq] at hb
        refine ⟨h0.1, ?_, ?_⟩
        · intro hcc
          exfalso
          have h7 := h0.1.mp hcc
          rw [hbid, hnorep] at h7
          exact Bool.noConfusion h7
        · intro hcc
          exact AssignmentStatus.noConfusion hcc
      · rw [if_neg hb]
        exact h0

theorem complete_WF (s : Store) (pk actor : Nat) (f : ReportForm) (now : Nat)
    (hOk : Bool) (hwf : WF s) : WF ((completeWithReport s pk actor f now hOk).2) := by
  unfold completeWithReport
  split
  · exact hwf
  · rename_i c heq
    have hc_mem := List.mem_of_find?_eq_some heq
    have hc_pred := List.find?_some heq
    simp only [Bool.and_eq_true, beq_iff_eq, decide_eq_true_eq] at hc_pred
    obtain ⟨hcrid, hcst⟩ := hc_pred
    apply WF_recordHistory
    refine ⟨?_, ?_, ?_⟩
    · intro r hr
      simp only [updateRequest, List.mem_map] at hr
      obtain ⟨r0, hr0, rfl⟩ := hr
      have hfr := hwf.fresh r0 hr0
      split <;> exact hfr
    · intro rep hr
      rcases List.mem_append.mp hr with h | h
      · exact hwf.repFresh rep h
      · rw [List.mem_singleton.mp h]
        show pk < s.nextId
        rw [← hcrid]
        exact hwf.fresh c hc_mem
    · intro r hr
      simp only [updateRequest, List.mem_map] at hr
      obtain ⟨r0, hr0, rfl⟩ := hr
      have h0 := hwf.inv r0 hr0
      by_cases hb : (r0.rid == pk) = true
      · rw [if_pos hb]
        have hbid : r0.rid = pk := by rwa [beq_iff_eq] at hb
        constructor
        · simp [hasReport, hbid]
        · simp
      · rw [if_neg hb]
        have hne : pk ≠ r0.rid := by
          intro hco
          apply hb
          rw [beq_iff_eq]
          omega
        have h8 : (pk == r0.rid) = false := by
          rw [beq_eq_false_iff_ne]
          exact hne
        constructor
        · simp only [hasReport, List.any_append, List.any_cons, List.any_nil,
            Bool.or_false, h8]
          exact h0.1
        · exact h0.2

theorem reachable_WF {s : Store} (h : Reachable s) : WF s := by
  induction h with
  | init users nid => exact WF_init users nid
  | submitStep d f now hOk _ ih => exact submit_WF _ d f now hOk ih
  | claimStep pk actor now hOk _ ih => exact claim_WF _ pk actor now hOk ih
  | completeStep pk actor f now hOk _ ih => exact complete_WF _ pk actor f now hOk ih

theorem decide_beq_iff (P : Prop) [Decidable P] (b : Bool) :
    ((decide P == b) = true) ↔ (P ↔ b = true) := by
  cases b <;> simp

theorem completionInvB_eq_true_iff (s : Store) :
    completionInvB s = true ↔ CompletionInv s := by
  unfold completionInvB CompletionInv
  rw [List.all_eq_true]
  refine forall_congr' (fun r => imp_congr_right (fun _ => ?_))
  rw [Bool.and_eq_true, decide_beq_iff, beq_iff_eq, decide_eq_decide]

theorem updateRequest_all_complete (l : List Request) (pk : Nat) :
    (updateRequest l pk (fun r => { r with status := Status.Completed, assignmentStatus := AssignmentStatus.Completed })).all (fun r =>
      !(r.rid == pk) || (decide (r.status = Status.Completed) &&
        decide (r.assignmentStatus = AssignmentStatus.Completed))) = true := by
  rw [List.all_eq_true]
  intro r hr
  simp only [updateRequest, List.mem_map] at hr
  obtain ⟨r0, hr0, rfl⟩ := hr
  by_cases hb : (r0.rid == pk) = true
  · rw [if_pos hb]
    simp
  · rw [if_neg hb]
    simp only [Bool.not_eq_true] at hb
    simp [hb]

theorem claim_preserves_status_column (s : Store) (pk a now : Nat) (hOk : Bool) :
    ((claim s pk a now hOk).2).requests.map Request.status =
      s.requests.map Request.status := by
  unfold claim
  split
  · rfl
  · dsimp only
    rw [recordHistory_requests]
    exact updateRequest_map_eq Request.status s.requests pk _ (fun r => rfl)

theorem submit_preserves_completed_count (s : Store) (d : Nat) (f : SubmitForm)
    (now : Nat) (hOk : Bool) :
    (((submit s d f now hOk).2).requests.map Request.status).countP
        (fun st => decide (st = Status.Completed)) =
      (s.requests.map Request.status).countP
        (fun st => decide (st = Status.Completed)) := by
  unfold submit
  split
  · split
    · rfl
    · dsimp only
      rw [recordHistory_requests, List.map_append, List.countP_append]
      simp
  · rfl

/-! ### Demonstration stores used by the witness theorems -/

def demoUsers : List PortalUser :=
  [{ uid := 1, role := Role.Doctor, fullName := "Meera", isActive := true },
   { uid := 2, role := Role.Lab, fullName := "Asha", isActive := true },
   { uid := 3, role := Role.Lab, fullName := "Bala", isActive := true }]

def demoForm : SubmitForm := { patientId := "P1", assignedTo := none }

def demoReport : ReportForm :=
  { rcCode := "RC1", labId := "L7", reportText := "No growth seen",
    authBy := "Asha", hasPdf := false }

def demo0 : Store := initStore demoUsers 0

def demo1 : Store := (submit demo0 1 demoForm 10 true).2

def demo2 : Store := (completeWithReport demo1 0 2 demoReport 20 true).2

/-! ### Claims -/

/-- C1: for every store reachable through the core operations (submit,
claim, complete-with-report), the three conditions `status = Completed`,
"a Report exists for this Request" and `assignment_status = Completed`
are equivalent for every Request, so every operation preserves this
equivalence. -/
theorem completion_invariant_reachable (s : Store) (h : Reachable s) :
    completionInvB s = true :=
  (completionInvB_eq_true_iff s).mpr (reachable_WF h).inv

theorem completion_invariant_reachable_witness : completionInvB demo2 = true :=
  completion_invariant_reachable demo2
    (Reachable.completeStep 0 2 demoReport 20 true
      (Reachable.submitStep 1 demoForm 10 true (Reachable.init demoUsers 0)))

/-- C2: a submission with at least one active technician and no explicit
technician choice succeeds and assigns the new Request to exactly the
technician described by `specFirstMin`: the first one, in the iteration
order of the active-technician set, whose count of Pending Requests
assigned to it equals the minimum such count (ties broken by first
encounter). -/
theorem submit_auto_assigns_first_least_busy (s : Store) (d : Nat) (f : SubmitForm)
    (now : Nat) (hOk : Bool) (hnone : f.assignedTo = none) (hne : labTechs s ≠ []) :
    (submit s d f now hOk).1 = Except.ok s.nextId ∧
    (((submit s d f now hOk).2).requests).map Request.assignedTo =
      (s.requests.map Request.assignedTo) ++
        [Option.map PortalUser.uid
          (specFirstMin (fun u => pendingCount s u.uid) (labTechs s))] := by
  obtain ⟨t, ts, hT⟩ := List.exists_cons_of_ne_nil hne
  have hval : formValid s f = true := by
    unfold formValid
    rw [hnone]
  unfold submit
  simp only [hval, if_true, hnone, hT]
  constructor
  · trivial
  · rw [recordHistory_requests, List.map_append, specFirstMin_cons]
    rfl

def loadUsers : List PortalUser :=
  [{ uid := 1, role := Role.Doctor, fullName := "Meera", isActive := true },
   { uid := 2, role := Role.Lab, fullName := "TechA", isActive := true },
   { uid := 3, role := Role.Lab, fullName := "TechB", isActive := true },
   { uid := 4, role := Role.Lab, fullName := "TechC", isActive := true }]

def pendingReq (i t : Nat) : Request :=
  { rid := i, doctor := 1, patientId := "P", status := Status.Pending,
    assignedTo := some t, assignmentStatus := AssignmentStatus.Assigned,
    assignedDate := some 1 }

def loadStore : Store :=
  { users := loadUsers,
    requests := [pendingReq 0 2, pendingReq 1 2, pendingReq 2 4],
    reports := [], history := [], nextId := 3 }

theorem submit_auto_assigns_first_least_busy_witness :
    (submit loadStore 1 demoForm 30 true).1 = Except.ok loadStore.nextId ∧
    (((submit loadStore 1 demoForm 30 true).2).requests).map Request.assignedTo =
      (loadStore.requests.map Request.assignedTo) ++
        [Option.map PortalUser.uid
          (specFirstMin (fun u => pendingCount loadStore u.uid)
            (labTechs loadStore))] :=
  submit_auto_assigns_first_least_busy loadStore 1 demoForm 30 true rfl (by decide)

/-- C3: a submission attempted while the set of active technicians is
empty fails with `NoTechniciansAvailable` and leaves the store
completely unchanged: no Request is created or persisted. -/
theorem submit_no_active_techs_rejected (s : Store) (d : Nat) (f : SubmitForm)
    (now : Nat) (hOk : Bool) (hval : formValid s f = true)
    (hempty : labTechs s = []) :
    submit s d f now hOk = (Except.error SubmitError.NoTechniciansAvailable, s) := by
  unfold submit
  rw [if_pos hval, hempty]

def noTechUsers : List PortalUser :=
  [{ uid := 1, role := Role.Doctor, fullName := "Meera", isActive := true },
   { uid := 9, role := Role.Lab, fullName := "Idle", isActive := false }]

def noTechStore : Store := initStore noTechUsers 0

theorem submit_no_active_techs_rejected_witness :
    submit noTechStore 1 demoForm 5 true =
      (Except.error SubmitError.NoTechniciansAvailable, noTechStore) :=
  submit_no_active_techs_rejected noTechStore 1 demoForm 5 true (by decide) (by decide)

/-- C4: for a Request in Pending status, complete-with-report succeeds,
persists the Report and moves both `status` and `assignment_status` to
Completed together, leaving every other Request untouched; and no other
operation completes a case: claim preserves the whole status column and
submit does not change the number of Completed Requests. -/
theorem complete_atomic_transition (s : Store) (pk a : Nat) (rf : ReportForm)
    (now : Nat) (hOk : Bool) (pk2 a2 n2 : Nat) (h2 : Bool) (d2 : Nat)
    (f2 : SubmitForm) (n3 : Nat) (h3 : Bool)
    (hfind : (s.requests.find? (fun r =>
        r.rid == pk && decide (r.status = Status.Pending))).isSome = true) :
    okResult (completeWithReport s pk a rf now hOk).1 = true ∧
    hasReport (completeWithReport s pk a rf now hOk).2 pk = true ∧
    ((completeWithReport s pk a rf now hOk).2).requests.all (fun r =>
        !(r.rid == pk) || (decide (r.status = Status.Completed) &&
          decide (r.assignmentStatus = AssignmentStatus.Completed))) = true ∧
    ((completeWithReport s pk a rf now hOk).2).requests.filter
        (fun r => !(r.rid == pk)) =
      s.requests.filter (fun r => !(r.rid == pk)) ∧
    ((claim s pk2 a2 n2 h2).2).requests.map Request.status =
      s.requests.map Request.status ∧
    (((submit s d2 f2 n3 h3).2).requests.map Request.status).countP
        (fun st => decide (st = Status.Completed)) =
      (s.requests.map Request.status).countP
        (fun st => decide (st = Status.Completed)) := by
  obtain ⟨c, heq⟩ := Option.isSome_iff_exists.mp hfind
  refine ⟨?_, ?_, ?_, ?_, claim_preserves_status_column s pk2 a2 n2 h2,
    submit_preserves_completed_count s d2 f2 n3 h3⟩
  · unfold completeWithReport
    rw [heq]
    rfl
  · unfold completeWithReport
    rw [heq]
    show hasReport (recordHistory hOk _ _) pk = true
    rw [recordHistory_hasReport]
    unfold hasReport
    rw [List.any_append]
    simp
  · unfold completeWithReport
    rw [heq]
    show (recordHistory hOk _ _).requests.all _ = true
    rw [recordHistory_requests]
    exact updateRequest_all_complete s.requests pk
  · unfold completeWithReport
    rw [heq]
    show (recordHistory hOk _ _).requests.filter _ = _
    rw [recordHistory_requests]
    exact updateRequest_filter_ne s.requests pk _ (fun r => rfl)

theorem complete_atomic_transition_witness :
    okResult (completeWithReport demo1 0 2 demoReport 20 true).1 = true ∧
    hasReport (completeWithReport demo1 0 2 demoReport 20 true).2 0 = true ∧
    ((completeWithReport demo1 0 2 demoReport 20 true).2).requests.all (fun r =>
        !(r.rid == 0) || (decide (r.status = Status.Completed) &&
          decide (r.assignmentStatus = AssignmentStatus.Completed))) = true ∧
    ((completeWithReport demo1 0 2 demoReport 20 true).2).requests.filter
        (fun r => !(r.rid == 0)) =
      demo1.requests.filter (fun r => !(r.rid == 0)) ∧
    ((claim demo1 0 2 21 true).2).requests.map Request.status =
      demo1.requests.map Request.status ∧
    (((submit demo1 1 demoForm 22 true).2).requests.map Request.status).countP
        (fun st => decide (st = Status.Completed)) =
      (demo1.requests.map Request.status).countP
        (fun st => decide (st = Status.Completed)) :=
  complete_atomic_transition demo1 0 2 demoReport 20 true 0 2 21 true 1
    demoForm 22 true (by decide)

/-- C5: the claim operation fails with `InvalidStateTransition` and
leaves the store (in particular the target Request) unchanged whenever
no Request with the given id is in state exactly
(status = Pending, assignment_status = Unassigned) — so claiming an
already-claimed or completed case, or a nonexistent one, is a no-op
with an error. -/
theorem claim_fails_unless_pending_unassigned (s : Store) (pk a now : Nat)
    (hOk : Bool)
    (hno : s.requests.all (fun r =>
      !(r.rid == pk && decide (r.status = Status.Pending) &&
        decide (r.assignmentStatus = AssignmentStatus.Unassigned))) = true) :
    claim s pk a now hOk = (Except.error ClaimError.InvalidStateTransition, s) := by
  have hnone : s.requests.find? (fun r =>
      r.rid == pk && decide (r.status = Status.Pending) &&
      decide (r.assignmentStatus = AssignmentStatus.Unassigned)) = none := by
    rw [List.find?_eq_none]
    intro r hr
    have h4 := List.all_eq_true.mp hno r hr
    simp only [Bool.not_eq_true'] at h4
    simp [h4]
  unfold claim
  rw [hnone]

def unassignedReq : Request :=
  { rid := 0, doctor := 1, patientId := "P2", status := Status.Pending,
    assignedTo := none, assignmentStatus := AssignmentStatus.Unassigned,
    assignedDate := none }

def queueStore : Store :=
  { users := demoUsers, requests := [unassignedReq], reports := [],
    history := [], nextId := 1 }

def claimedStore : Store := (claim queueStore 0 2 5 true).2

theorem claim_fails_unless_pending_unassigned_witness :
    claim claimedStore 0 3 6 true =
      (Except.error ClaimError.InvalidStateTransition, claimedStore) :=
  claim_fails_unless_pending_unassigned claimedStore 0 3 6 true (by decide)

/-- C6: complete-with-report against a Request that is not Pending
(e.g. already completed) or does not exist fails with
`RequestNotEligible` and leaves the store unchanged — in particular a
previously existing Report is untouched. -/
theorem complete_fails_unless_pending (s : Store) (pk a : Nat) (rf : ReportForm)
    (now : Nat) (hOk : Bool)
    (hno : s.requests.all (fun r =>
      !(r.rid == pk && decide (r.status = Status.Pending))) = true) :
    completeWithReport s pk a rf now hOk =
      (Except.error CompleteError.RequestNotEligible, s) := by
  have hnone : s.requests.find? (fun r =>
      r.rid == pk && decide (r.status = Status.Pending)) = none := by
    rw [List.find?_eq_none]
    intro r hr
    have h4 := List.all_eq_true.mp hno r hr
    simp only [Bool.not_eq_true'] at h4
    simp [h4]
  unfold completeWithReport
  rw [hnone]

theorem complete_fails_unless_pending_witness :
    completeWithReport demo2 0 2 demoReport 30 true =
      (Except.error CompleteError.RequestNotEligible, demo2) :=
  complete_fails_unless_pending demo2 0 2 demoReport 30 true (by decide)

theorem submit_history_ok (s : Store) (d : Nat) (f : SubmitForm) (now : Nat)
    (h : okResult (submit s d f now true).1 = true) :
    ((submit s d f now true).2).history.tail = s.history ∧
    Option.map RequestHistory.action ((submit s d f now true).2).history.head? =
      some "Submitted" := by
  unfold submit at h ⊢
  by_cases hv : formValid s f = true
  · rw [if_pos hv] at h ⊢
    cases hT : labTechs s with
    | nil =>
      rw [hT] at h
      simp [okResult] at h
    | cons t ts =>
      exact ⟨rfl, rfl⟩
  · rw [if_neg hv] at h
    simp [okResult] at h

theorem claim_history_ok (s : Store) (pk a now : Nat)
    (h : okResult (claim s pk a now true).1 = true) :
    ((claim s pk a now true).2).history.tail = s.history ∧
    Option.map RequestHistory.action ((claim s pk a now true).2).history.head? =
      some "Assigned" := by
  unfold claim at h ⊢
  cases hF : s.requests.find? (fun r =>
      r.rid == pk && decide (r.status = Status.Pending) &&
      decide (r.assignmentStatus = AssignmentStatus.Unassigned)) with
  | none =>
    rw [hF] at h
    simp [okResult] at h
  | some c =>
    exact ⟨rfl, rfl⟩

theorem complete_history_ok (s : Store) (pk a : Nat) (rf : ReportForm) (now : Nat)
    (h : okResult (completeWithReport s pk a rf now true).1 = true) :
    ((completeWithReport s pk a rf now true).2).history.tail = s.history ∧
    Option.map RequestHistory.action
      ((completeWithReport s pk a rf now true).2).history.head? =
      some "Report Completed" := by
  unfold completeWithReport at h ⊢
  cases hF : s.requests.find? (fun r =>
      r.rid == pk && decide (r.status = Status.Pending)) with
  | none =>
    rw [hF] at h
    simp [okResult] at h
  | some c =>
    exact ⟨rfl, rfl⟩

/-- C7: when the best-effort history write succeeds, every successful
state-changing operation prepends exactly one new history entry (the
rest of the history is unchanged) whose `action` matches the
transition: `Submitted` for submission, `Assigned` for claim,
`Report Completed` for report completion. -/
theorem ops_record_one_history_entry (s : Store) (d : Nat) (f : SubmitForm)
    (pk a : Nat) (rf : ReportForm) (now : Nat)
    (h1 : okResult (submit s d f now true).1 = true)
    (h2 : okResult (claim s pk a now true).1 = true)
    (h3 : okResult (completeWithReport s pk a rf now true).1 = true) :
    (((submit s d f now true).2).history.tail = s.history ∧
      Option.map RequestHistory.action ((submit s d f now true).2).history.head? =
        some "Submitted") ∧
    (((claim s pk a now true).2).history.tail = s.history ∧
      Option.map RequestHistory.action ((claim s pk a now true).2).history.head? =
        some "Assigned") ∧
    (((completeWithReport s pk a rf now true).2).history.tail = s.history ∧
      Option.map RequestHistory.action
        ((completeWithReport s pk a rf now true).2).history.head? =
        some "Report Completed") :=
  ⟨submit_history_ok s d f now h1, claim_history_ok s pk a now h2,
    complete_history_ok s pk a rf now h3⟩

theorem ops_record_one_history_entry_witness :
    (((submit queueStore 1 demoForm 7 true).2).history.tail = queueStore.history ∧
      Option.map RequestHistory.action
        ((submit queueStore 1 demoForm 7 true).2).history.head? =
        some "Submitted") ∧
    (((claim queueStore 0 2 7 true).2).history.tail = queueStore.history ∧
      Option.map RequestHistory.action
        ((claim queueStore 0 2 7 true).2).history.head? =
        some "Assigned") ∧
    (((completeWithReport queueStore 0 2 demoReport 7 true).2).history.tail =
        queueStore.history ∧
      Option.map RequestHistory.action
        ((completeWithReport queueStore 0 2 demoReport 7 true).2).history.head? =
        some "Report Completed") :=
  ops_record_one_history_entry queueStore 1 demoForm 0 2 demoReport 7
    (by decide) (by decide) (by decide)

/-- C8: a failure of the history write (`hOk = false`) is swallowed: the
operation returns the same result as when the write succeeds, the
primary Request and Report changes still commit identically, the
history is left unchanged, and no error is surfaced to the actor. -/
theorem history_failure_swallowed (s : Store) (d : Nat) (f : SubmitForm)
    (pk a : Nat) (rf : ReportForm) (now : Nat) :
    ((submit s d f now false).1 = (submit s d f now true).1 ∧
      ((submit s d f now false).2).requests = ((submit s d f now true).2).requests ∧
      ((submit s d f now false).2).reports = ((submit s d f now true).2).reports ∧
      ((submit s d f now false).2).history = s.history) ∧
    ((claim s pk a now false).1 = (claim s pk a now true).1 ∧
      ((claim s pk a now false).2).requests = ((claim s pk a now true).2).requests ∧
      ((claim s pk a now false).2).reports = ((claim s pk a now true).2).reports ∧
      ((claim s pk a now false).2).history = s.history) ∧
    ((completeWithReport s pk a rf now false).1 =
        (completeWithReport s pk a rf now true).1 ∧
      ((completeWithReport s pk a rf now false).2).requests =
        ((completeWithReport s pk a rf now true).2).requests ∧
      ((completeWithReport s pk a rf now false).2).reports =
        ((completeWithReport s pk a rf now true).2).reports ∧
      ((completeWithReport s pk a rf now false).2).history = s.history) := by
  refine ⟨?_, ?_, ?_⟩
  · unfold submit
    by_cases hv : formValid s f = true
    · simp only [if_pos hv]
      cases hT : labTechs s with
      | nil => exact ⟨rfl, rfl, rfl, rfl⟩
      | cons t ts => exact ⟨rfl, rfl, rfl, rfl⟩
    · simp only [if_neg hv]
      refine ⟨?_, ?_, ?_, ?_⟩ <;> trivial
  · unfold claim
    cases hF : s.requests.find? (fun r =>
        r.rid == pk && decide (r.status = Status.Pending) &&
        decide (r.assignmentStatus = AssignmentStatus.Unassigned)) with
    | none => exact ⟨rfl, rfl, rfl, rfl⟩
    | some c => exact ⟨rfl, rfl, rfl, rfl⟩
  · unfold completeWithReport
    cases hF : s.requests.find? (fun r =>
        r.rid == pk && decide (r.status = Status.Pending)) with
    | none => exact ⟨rfl, rfl, rfl, rfl⟩
    | some c => exact ⟨rfl, rfl, rfl, rfl⟩

/-- C9: a submission with an explicit technician choice (and at least
one active technician) succeeds and assigns the new Request to exactly
the chosen technician — no load-balancing override — with
`assignment_status = Assigned` and the assignment time stamped. -/
theorem submit_explicit_choice_honored (s : Store) (d : Nat) (f : SubmitForm)
    (tid : Nat) (now : Nat) (hOk : Bool) (hsome : f.assignedTo = some tid)
    (hval : formValid s f = true) (hne : labTechs s ≠ []) :
    (submit s d f now hOk).1 = Except.ok s.nextId ∧
    ((submit s d f now hOk).2).requests = s.requests ++
      [{ rid := s.nextId, doctor := d, patientId := f.patientId,
         status := Status.Pending, assignedTo := some tid,
         assignmentStatus := AssignmentStatus.Assigned,
         assignedDate := some now }] := by
  obtain ⟨t, ts, hT⟩ := List.exists_cons_of_ne_nil hne
  unfold submit
  simp only [hval, if_true, hsome, hT]
  constructor
  · trivial
  · rw [recordHistory_requests]

def explicitForm : SubmitForm := { patientId := "P9", assignedTo := some 2 }

theorem submit_explicit_choice_honored_witness :
    (submit loadStore 1 explicitForm 40 true).1 = Except.ok loadStore.nextId ∧
    ((submit loadStore 1 explicitForm 40 true).2).requests = loadStore.requests ++
      [{ rid := loadStore.nextId, doctor := 1, patientId := explicitForm.patientId,
         status := Status.Pending, assignedTo := some 2,
         assignmentStatus := AssignmentStatus.Assigned,
         assignedDate := some 40 }] :=
  submit_explicit_choice_honored loadStore 1 explicitForm 2 40 true rfl
    (by decide) (by decide)

def mixedUsers : List PortalUser :=
  [{ uid := 1, role := Role.Doctor, fullName := "Meera", isActive := true },
   { uid := 2, role := Role.Lab, fullName := "Asha", isActive := true },
   { uid := 3, role := Role.Lab, fullName := "Bala", isActive := false }]

def mixedStore : Store := initStore mixedUsers 0

def inactiveChoiceForm : SubmitForm := { patientId := "PX", assignedTo := some 3 }

/-- C10: the candidate set for an explicit technician choice is all
Lab-role users with no active filter, while only the availability check
and the auto-assignment pool are restricted to active technicians — so
with one active technician (uid 2) present, a submission explicitly
choosing the inactive Lab user (uid 3) passes form validation, succeeds,
and assigns the case to the inactive technician. -/
theorem explicit_choice_can_hit_inactive_tech :
    (labTechs mixedStore).map PortalUser.uid = [2] ∧
    (labRoleUsers mixedStore).map PortalUser.uid = [2, 3] ∧
    (mixedStore.users.filter (fun u => u.uid == 3)).map PortalUser.isActive =
      [false] ∧
    formValid mixedStore inactiveChoiceForm = true ∧
    (submit mixedStore 1 inactiveChoiceForm 7 true).1 = Except.ok 0 ∧
    ((submit mixedStore 1 inactiveChoiceForm 7 true).2).requests.map
      Request.assignedTo = [some 3] := by
  refine ⟨rfl, rfl, rfl, rfl, rfl, rfl⟩

end Microbiology
